import Mathlib

/-!
Verification development for the multi-provider LLM orchestration core of
the repository (src/brain/orchestrator.py and src/brain/creative.py).

The Python code is shallowly embedded: every definition below is translated
from the corresponding source function.  Strings are Lean `String`s,
Python's `Optional[str]` becomes `Option String`, and the nondeterministic
network boundary of the provider wrappers is abstracted as an `Oracle`
argument (provider name, prompt, system message ↦ response or absence).
Floating-point novelty scores are modelled over `ℚ`; the properties proved
about them (being exactly 1, or strictly below 1 with a denominator of at
least 2) are invariant under IEEE-754 double rounding for the operations
involved, as noted at the definition.
-/

set_option maxRecDepth 4000

namespace DevForge

/-! ### Python string primitives

Helpers modelling the CPython `str` operations used by the source
(`strip`, `lower`, `split`, whitespace collapsing).  The repository only
ever feeds ASCII data through these paths, and the model is exact on the
ASCII fragment: `\s` / `str.strip()` whitespace is the ASCII whitespace
set, and `lower` maps `A`–`Z` to `a`–`z`. -/

/-- ASCII whitespace, the characters matched by `\s` and stripped by
`str.strip()` on ASCII input: space, tab, newline, carriage return,
vertical tab, form feed. -/
def isPyWs (c : Char) : Bool :=
  c = ' ' ∨ c = '\t' ∨ c = '\n' ∨ c = '\r' ∨ c = '\x0b' ∨ c = '\x0c'

/-- `str.strip()` : drop leading and trailing whitespace. -/
def pyStrip (s : String) : String :=
  String.mk (((s.toList.dropWhile isPyWs).reverse.dropWhile isPyWs).reverse)

/-- ASCII `str.lower()` on a single character. -/
def lowerChar (c : Char) : Char :=
  if 'A' ≤ c ∧ c ≤ 'Z' then Char.ofNat (c.toNat + 32) else c

/-- `str.lower()` (ASCII fragment). -/
def pyLower (s : String) : String :=
  String.mk (s.toList.map lowerChar)

/-- `re.sub(r"\s+", " ", ·)` : replace each maximal whitespace run by a
single space.  The boolean flag records whether the previous character was
whitespace. -/
def collapseWsAux : List Char → Bool → List Char
  | [], _ => []
  | c :: rest, prevWs =>
    if isPyWs c then
      if prevWs then collapseWsAux rest true
      else ' ' :: collapseWsAux rest true
    else c :: collapseWsAux rest false

/-- Character-list startsWith test. -/
def startsWithL : List Char → List Char → Bool
  | [], _ => true
  | _ :: _, [] => false
  | c :: p, d :: s => c = d && startsWithL p s

/-- Contiguous-sublist test on character lists. -/
def infixL (needle : List Char) : List Char → Bool
  | [] => startsWithL needle []
  | d :: s => startsWithL needle (d :: s) || infixL needle s

/-- Python substring test `needle in haystack` (contiguous substring). -/
def pyInStr (needle haystack : String) : Bool :=
  infixL needle.toList haystack.toList

/-- `str.split()` with no argument: split on whitespace runs, dropping
empty fields. -/
def pyWordsAux : List Char → List Char → List (List Char)
  | [], cur => if cur = [] then [] else [cur.reverse]
  | c :: rest, cur =>
    if isPyWs c then
      if cur = [] then pyWordsAux rest []
      else cur.reverse :: pyWordsAux rest []
    else pyWordsAux rest (c :: cur)

/-- `str.split()` as a list of words. -/
def pyWords (s : String) : List String :=
  (pyWordsAux s.toList []).map String.mk

/-! ### Short-term memory  (orchestrator.py, `MEMORY` / `memory_add`)

`MEMORY` is a `deque(maxlen=50)` of `(question, answer)` pairs; we model it
as a list with the oldest pair first.  `memory_add` appends only non-empty
pairs and the deque evicts from the left when it exceeds 50 entries. -/

abbrev Memory := List (String × String)

/-- `memory_add(q, a)`: append `(q, a)` when both are truthy; the
`deque(maxlen=50)` drops the oldest entries beyond capacity 50. -/
def memory_add (mem : Memory) (q a : String) : Memory :=
  if q ≠ "" ∧ a ≠ "" then
    let m := mem ++ [(q, a)]
    m.drop (m.length - 50)
  else mem

/-- The exact-memory stage of `answer_question`:
`for (qq, aa) in reversed(MEMORY): if qq.lower() == ql and aa: return aa`.
Scans most-recent first and requires a truthy stored answer. -/
def mem_lookup (mem : Memory) (ql : String) : Option String :=
  mem.reverse.findSome? fun qa =>
    if pyLower qa.1 = ql ∧ qa.2 ≠ "" then some qa.2 else none

/-! ### Vote reconciler  (orchestrator.py, `_normalize_for_vote` / `_vote_select`) -/

/-- `_normalize_for_vote`: strip, lowercase, delete backticks
(`re.sub(r"`+", "")`), then collapse whitespace runs to single spaces.
Note the order: backtick removal happens after the strip, so deleting a
leading backtick can expose leading whitespace that is never re-stripped. -/
def normalize_for_vote (s : String) : String :=
  let t := pyLower (pyStrip s)
  let t := String.mk (t.toList.filter (· ≠ '`'))
  String.mk (collapseWsAux t.toList false)

/-- One entry of the `counts` dict of `_vote_select`:
normalized key, occurrence count, and the first raw text seen for the key
(the dict stores `(count, first_raw)` and preserves insertion order). -/
abbrev VoteEntry := String × ℕ × String

/-- One iteration of the `for raw in candidates` loop of `_vote_select`:
skip candidates normalizing to the empty string, bump the count of an
existing key in place, or insert a new `(key, 1, raw)` entry at the end. -/
def voteStep (counts : List VoteEntry) (raw : String) : List VoteEntry :=
  let n := normalize_for_vote raw
  if n = "" then counts
  else if counts.any (fun e => e.1 = n) then
    counts.map (fun e => if e.1 = n then (e.1, e.2.1 + 1, e.2.2) else e)
  else counts ++ [(n, 1, raw)]

/-- The sort key of `_vote_select`'s `ranked` list: `(count, len(raw))`. -/
def voteKey (e : VoteEntry) : ℕ × ℕ := (e.2.1, e.2.2.length)

/-- Strict lexicographic order on Python pairs `(count, length)`. -/
def voteKeyLt (a b : ℕ × ℕ) : Prop :=
  a.1 < b.1 ∨ (a.1 = b.1 ∧ a.2 < b.2)

instance (a b : ℕ × ℕ) : Decidable (voteKeyLt a b) := by
  unfold voteKeyLt; infer_instance

/-- `sorted(counts.items(), key=…, reverse=True)[0]`: Python's sort is
stable and `reverse=True` keeps the original order among equal keys, so the
head of the ranked list is the first entry achieving the maximal key.  We
model it as a left fold (`bestEntry`) that replaces the current best only
on a strictly greater key. -/
def bestStep (best : Option VoteEntry) (e : VoteEntry) : Option VoteEntry :=
  match best with
  | none => some e
  | some b => if voteKeyLt (voteKey b) (voteKey e) then some e else some b

/-- Fold `bestStep` over the entries; the running best is replaced only on
a strictly greater key, so ties keep the earlier entry. -/
def bestEntry (l : List VoteEntry) : Option VoteEntry :=
  l.foldl bestStep none

/-- `_vote_select(candidates)`: majority vote on normalized strings with a
length tie-break; an empty candidate list yields `""`, and if every
candidate normalized to the empty string the first raw candidate is
returned. -/
def vote_select (candidates : List String) : String :=
  match candidates with
  | [] => ""
  | c0 :: _ =>
    let counts := candidates.foldl voteStep []
    match bestEntry counts with
    | none => c0
    | some e => e.2.2

/-! ### Creative sampler  (creative.py, `_shingles` / `novelty_score`) -/

/-- `_shingles(text, k)`: lowercase, split into whitespace-separated
tokens (the `re.sub(r"\s+", " ", …).strip()` preprocessing is absorbed by
`str.split()`), and collect the `len(toks)-k+1` consecutive `k`-grams
joined by single spaces.  We keep the grams as a list; the `Counter` view
is recovered through `List.count`. -/
def shingleList (text : String) (k : ℕ) : List String :=
  let toks := pyWords (pyLower text)
  (List.range (toks.length + 1 - k)).map
    (fun i => String.intercalate " " ((toks.drop i).take k))

/-- `sum(min(s[g], ss[g]) for g in s.keys() if g in ss)`: the multiset
intersection size of two gram lists, iterating over the distinct grams of
the first.  Grams absent from `ss` contribute `min(c, 0) = 0`, matching
the `if g in ss` filter. -/
def commonCount (s ss : List String) : ℕ :=
  ((s.dedup).map (fun g => min (s.count g) (ss.count g))).sum

/-- `novelty_score(text, others)` over `ℚ`.

The Python source iterates over the whole candidate pool and skips entries
with `other is text` — object identity, which for candidates gathered from
distinct provider calls skips exactly the candidate's own list slot while
distinct-but-equal duplicate strings are still counted.  Accordingly the
model takes `others` = the pool minus the candidate's own slot.  Empty
strings in the pool are skipped (`if not other: continue`).

The score `1/(1 + overlap/total)` is computed in `ℚ` where the source uses
IEEE doubles; for `overlap = 0` both give exactly 1, and for
`overlap ≥ total ≥ 1` both give a value in `(0, 1/2]`, so the properties
proved below transfer verbatim. -/
def novelty_score (text : String) (others : List String) : ℚ :=
  if text = "" then 0
  else
    let s := shingleList text 4
    if s = [] then 0
    else
      let total : ℕ := s.length
      let overlap : ℕ :=
        (others.map (fun o => if o = "" then 0 else commonCount s (shingleList o 4))).sum
      1 / (1 + (overlap : ℚ) / ((max total 1 : ℕ) : ℚ))

/-! ### Tiny facts  (orchestrator.py, `FACTS` / `_CAPITAL_OF` and stage 2)

The stage-2 lookup works on `ql`, the stripped and lowercased question.
It first tries the `"capital of X"` regex
`capital\s+(city\s+)?of\s+([a-z\s\-]+)\??` when both `"capital"` and
`" of "` occur in the question, then falls back to a substring scan of the
`FACTS` table in insertion order. -/

/-- The `FACTS` dict, in source insertion order. -/
def FACTS : List (String × String) :=
  [("capital city of kenya", "Nairobi"),
   ("capital city of tanzania", "Dodoma"),
   ("president of china", "Xi Jinping"),
   ("mount kenya continent", "Africa"),
   ("largest mountain in the world", "Mount Everest")]

/-- The `_CAPITAL_OF` dict, in source insertion order. -/
def CAPITAL_OF : List (String × String) :=
  [("kenya", "Nairobi"),
   ("tanzania", "Dodoma"),
   ("south africa",
    "Pretoria (administrative), Cape Town (legislative), Bloemfontein (judicial)")]

/-- Consume a literal from the front of a character list. -/
def dropLit : List Char → List Char → Option (List Char)
  | [], s => some s
  | _ :: _, [] => none
  | c :: p, d :: s => if c = d then dropLit p s else none

/-- The character class `[a-z\s\-]` of the capital regex. -/
def capClassChar (c : Char) : Bool :=
  ('a' ≤ c ∧ c ≤ 'z') ∨ isPyWs c ∨ c = '-'

/-- Tail of the capital regex, `of\s+([a-z\s\-]+)`, returning group 2.
`\s+` is greedy; if no class character follows the whitespace run the
engine backtracks one whitespace character into the group (possible only
when the run has length at least 2), exactly as Python's `re` does. -/
def capTailOf (t : List Char) : Option (List Char) :=
  match dropLit "of".toList t with
  | none => none
  | some t1 =>
    let run := t1.takeWhile isPyWs
    let rest := t1.dropWhile isPyWs
    if run = [] then none
    else
      let g := rest.takeWhile capClassChar
      if g ≠ [] then some g
      else if 2 ≤ run.length then some [run.getLastD ' ']
      else none

/-- Attempt the regex `capital\s+(city\s+)?of\s+([a-z\s\-]+)\??` at the
start of `s`, returning group 2 on success.  The optional `(city\s+)?` is
tried greedily first; if the rest of the pattern then fails the engine
retries without it.  The trailing `\??` constrains nothing. -/
def capMatchAt (s : List Char) : Option String :=
  match dropLit "capital".toList s with
  | none => none
  | some s1 =>
    let run := s1.takeWhile isPyWs
    let rest := s1.dropWhile isPyWs
    if run = [] then none
    else
      let cityBranch : Option (List Char) :=
        match dropLit "city".toList rest with
        | none => none
        | some r1 =>
          let run2 := r1.takeWhile isPyWs
          let rest2 := r1.dropWhile isPyWs
          if run2 = [] then none else capTailOf rest2
      match cityBranch with
      | some g => some (String.mk g)
      | none =>
        match capTailOf rest with
        | some g => some (String.mk g)
        | none => none

/-- `re.search` for the capital pattern: try every start position from the
left, first success wins. -/
def capSearch : List Char → Option String
  | [] => none
  | c :: rest =>
    match capMatchAt (c :: rest) with
    | some g => some g
    | none => capSearch rest

/-- Stage 2 of `answer_question`: the `"capital of X"` pattern (guarded by
the two substring tests) with a `_CAPITAL_OF` lookup of the stripped
group, falling through to the `FACTS` substring scan when it yields
nothing. -/
def facts_try (ql : String) : Option String :=
  let cap : Option String :=
    if pyInStr "capital" ql && pyInStr " of " ql then
      match capSearch ql.toList with
      | some g => CAPITAL_OF.lookup (pyStrip g)
      | none => none
    else none
  match cap with
  | some a => some a
  | none =>
    FACTS.findSome? fun kv =>
      if pyInStr kv.1 ql then some kv.2 else none

/-! ### Safe math stage  (orchestrator.py, `_math_try`)

`_math_try` guards the input by a character whitelist and an
at-least-one-operator test, then computes `str(sympify(expr).evalf())` and
strips a trailing `".0"`.

The SymPy pipeline is modelled for the whitelisted grammar
(numbers, `+ - * / %`, parentheses, spaces): expressions are parsed with
Python's precedence and evaluated exactly; `x/0` yields SymPy's complex
infinity `zoo` (printed `"zoo"`), `0/0` and `Mod(x, 0)` yield `nan`.
Decimal literals are modelled as exact rationals where SymPy stores
53-bit binary floats; the 15-significant-digit strings printed by
`str(….evalf())` agree between the two representations for the short
decimal inputs relevant here.  Crucially, `str` on an `evalf()` result
pads to 15 significant digits (`4 ↦ "4.00000000000000"`), so it never
ends in `".0"` except for the exact zero (printed `"0.0"`). -/

/-- Tokens of the whitelisted arithmetic grammar. -/
inductive MTok where
  | num (s : List Char)
  | plus | minus | star | slash | percent | lparen | rparen
deriving DecidableEq, Repr

/-- Maximal run of number characters (digits and dots). -/
def isNumChar (c : Char) : Bool := c.isDigit ∨ c = '.'

/-- Tokenizer for the whitelisted charset; adjacent digits/dots form one
number token (a malformed run such as `1.2.3` is rejected later, as
Python's tokenizer also errors on it).  Fuelled recursion; the fuel
`length + 1` always suffices since every step consumes a character. -/
def mtokenizeAux : ℕ → List Char → Option (List MTok)
  | 0, _ => none
  | _ + 1, [] => some []
  | fuel + 1, c :: rest =>
    if c = ' ' then mtokenizeAux fuel rest
    else if isNumChar c then
      let run := (c :: rest).takeWhile isNumChar
      let rest2 := (c :: rest).dropWhile isNumChar
      match mtokenizeAux fuel rest2 with
      | some ts => some (MTok.num run :: ts)
      | none => none
    else
      let tok : Option MTok :=
        if c = '+' then some MTok.plus
        else if c = '-' then some MTok.minus
        else if c = '*' then some MTok.star
        else if c = '/' then some MTok.slash
        else if c = '%' then some MTok.percent
        else if c = '(' then some MTok.lparen
        else if c = ')' then some MTok.rparen
        else none
      match tok with
      | some t =>
        match mtokenizeAux fuel rest with
        | some ts => some (t :: ts)
        | none => none
      | none => none

/-- Digit run to natural number. -/
def digitsToNat (l : List Char) : ℕ :=
  l.foldl (fun n c => n * 10 + (c.toNat - 48)) 0

/-- Value of a Python numeric literal made of digits and dots: at most one
dot, at least one digit, and a dotless literal may not have a leading zero
unless it is all zeros (Python rejects `012` but accepts `0`, `00` and
`012.5`). -/
def numValue (s : List Char) : Option ℚ :=
  if 1 < s.count '.' then none
  else if ¬ s.any Char.isDigit then none
  else if s.all Char.isDigit ∧ 1 < s.length ∧ s.head? = some '0' ∧ s.any (· ≠ '0') then none
  else
    let ip := s.takeWhile (· ≠ '.')
    let fp := (s.dropWhile (· ≠ '.')).drop 1
    some ((digitsToNat ip : ℚ) + (digitsToNat fp : ℚ) / ((10 ^ fp.length : ℕ) : ℚ))

/-- SymPy value lattice for the whitelisted grammar: an exact rational,
complex infinity `zoo`, or `nan`. -/
inductive SymVal where
  | rat (q : ℚ) | zoo | nan
deriving DecidableEq, Repr

/-- SymPy negation. -/
def svNeg : SymVal → SymVal
  | SymVal.rat q => SymVal.rat (-q)
  | SymVal.zoo => SymVal.zoo
  | SymVal.nan => SymVal.nan

/-- SymPy addition: `zoo + zoo = nan`, `zoo + finite = zoo`. -/
def svAdd : SymVal → SymVal → SymVal
  | SymVal.nan, _ => SymVal.nan
  | _, SymVal.nan => SymVal.nan
  | SymVal.zoo, SymVal.zoo => SymVal.nan
  | SymVal.zoo, SymVal.rat _ => SymVal.zoo
  | SymVal.rat _, SymVal.zoo => SymVal.zoo
  | SymVal.rat a, SymVal.rat b => SymVal.rat (a + b)

/-- SymPy subtraction `a - b = a + (-b)`. -/
def svSub (a b : SymVal) : SymVal := svAdd a (svNeg b)

/-- SymPy multiplication: `zoo * 0 = nan`, `zoo * x = zoo` otherwise. -/
def svMul : SymVal → SymVal → SymVal
  | SymVal.nan, _ => SymVal.nan
  | _, SymVal.nan => SymVal.nan
  | SymVal.zoo, SymVal.zoo => SymVal.zoo
  | SymVal.zoo, SymVal.rat q => if q = 0 then SymVal.nan else SymVal.zoo
  | SymVal.rat q, SymVal.zoo => if q = 0 then SymVal.nan else SymVal.zoo
  | SymVal.rat a, SymVal.rat b => SymVal.rat (a * b)

/-- SymPy reciprocal: `0⁻¹ = zoo`, `zoo⁻¹ = 0`. -/
def svInv : SymVal → SymVal
  | SymVal.nan => SymVal.nan
  | SymVal.zoo => SymVal.rat 0
  | SymVal.rat q => if q = 0 then SymVal.zoo else SymVal.rat q⁻¹

/-- SymPy division `a / b = a * b⁻¹` (so `1/0 = zoo`, `0/0 = nan`). -/
def svDiv (a b : SymVal) : SymVal := svMul a (svInv b)

/-- Floor of a rational, computed by floor division of the numerator by
the (positive) denominator. -/
def qFloor (a : ℚ) : ℤ := Int.fdiv a.num (a.den : ℤ)

/-- SymPy `Mod(a, b) = a - b*floor(a/b)` for rationals with `b ≠ 0`;
`nan` whenever a zero divisor, `zoo` or `nan` is involved. -/
def svMod : SymVal → SymVal → SymVal
  | SymVal.rat a, SymVal.rat b =>
    if b = 0 then SymVal.nan else SymVal.rat (a - b * (qFloor (a / b) : ℚ))
  | _, _ => SymVal.nan

/-- Recursive-descent parser with Python's precedence, fuelled.
Levels: `0` = sum expression, `1` = product term, `2` = unary/primary,
`10`/`11` = the corresponding left-associative operator loops carrying an
accumulator.  Each step spends one unit of fuel, so
`4 * number_of_tokens + 8` units always suffice. -/
def parseLvl : ℕ → ℕ → SymVal → List MTok → Option (SymVal × List MTok)
  | 0, _, _, _ => none
  | fuel + 1, 2, acc, toks =>
    match toks with
    | MTok.num s :: rest =>
      match numValue s with
      | some q => some (SymVal.rat q, rest)
      | none => none
    | MTok.plus :: rest => parseLvl fuel 2 acc rest
    | MTok.minus :: rest =>
      match parseLvl fuel 2 acc rest with
      | some (v, r) => some (svNeg v, r)
      | none => none
    | MTok.lparen :: rest =>
      match parseLvl fuel 0 acc rest with
      | some (v, MTok.rparen :: r2) => some (v, r2)
      | _ => none
    | _ => none
  | fuel + 1, 1, acc, toks =>
    match parseLvl fuel 2 acc toks with
    | some (v, rest) => parseLvl fuel 11 v rest
    | none => none
  | fuel + 1, 11, acc, toks =>
    match toks with
    | MTok.star :: rest =>
      match parseLvl fuel 2 acc rest with
      | some (v, r2) => parseLvl fuel 11 (svMul acc v) r2
      | none => none
    | MTok.slash :: rest =>
      match parseLvl fuel 2 acc rest with
      | some (v, r2) => parseLvl fuel 11 (svDiv acc v) r2
      | none => none
    | MTok.percent :: rest =>
      match parseLvl fuel 2 acc rest with
      | some (v, r2) => parseLvl fuel 11 (svMod acc v) r2
      | none => none
    | _ => some (acc, toks)
  | fuel + 1, 0, acc, toks =>
    match parseLvl fuel 1 acc toks with
    | some (v, rest) => parseLvl fuel 10 v rest
    | none => none
  | fuel + 1, 10, acc, toks =>
    match toks with
    | MTok.plus :: rest =>
      match parseLvl fuel 1 acc rest with
      | some (v, r2) => parseLvl fuel 10 (svAdd acc v) r2
      | none => none
    | MTok.minus :: rest =>
      match parseLvl fuel 1 acc rest with
      | some (v, r2) => parseLvl fuel 10 (svSub acc v) r2
      | none => none
    | _ => some (acc, toks)
  | _ + 1, _, _, _ => none

/-- `sympify` on a whitelisted expression: tokenize, parse a full
expression consuming every token, and evaluate; `none` models the
`SympifyError`/`TypeError` exceptions swallowed by `_math_try`. -/
def sympifyEval (expr : String) : Option SymVal :=
  match mtokenizeAux (expr.length + 1) expr.toList with
  | none => none
  | some [] => none
  | some toks =>
    match parseLvl (4 * toks.length + 8) 0 (SymVal.rat 0) toks with
    | some (v, []) => some v
    | _ => none

/-- Decimal digit count of a natural number (0 has zero digits), by
fuelled division; the fuel `n + 1` always suffices. -/
def digitCountAux : ℕ → ℕ → ℕ
  | 0, _ => 0
  | f + 1, n => if n = 0 then 0 else 1 + digitCountAux f (n / 10)

/-- Decimal digit count. -/
def digitCount (n : ℕ) : ℕ := digitCountAux (n + 1) n

/-- Test `v < 10^e` by cross-multiplying with integer powers of 10. -/
def qLtPow10 (v : ℚ) (e : ℤ) : Bool :=
  match e with
  | Int.ofNat n => v.num < ((10 ^ n : ℕ) : ℤ) * (v.den : ℤ)
  | Int.negSucc n => v.num * ((10 ^ (n + 1) : ℕ) : ℤ) < (v.den : ℤ)

/-- The decimal exponent of a positive rational: the unique `e` with
`10^e ≤ v < 10^(e+1)`.  The digit counts of numerator and denominator
locate `e` within one, and a single comparison settles it. -/
def qExp10 (v : ℚ) : ℤ :=
  let e0 : ℤ := (digitCount v.num.natAbs : ℤ) - (digitCount v.den : ℤ)
  if qLtPow10 v e0 then e0 - 1 else e0

/-- Round a nonnegative rational to the nearest integer, ties to even. -/
def roundHalfEven (x : ℚ) : ℕ :=
  let f : ℤ := qFloor x
  let frac := x - (f : ℚ)
  (if 1 / 2 < frac then f + 1
   else if frac < 1 / 2 then f
   else if f % 2 = 0 then f else f + 1).toNat

/-- Place the decimal point of a 15-digit significand given the decimal
exponent, following mpmath's `to_str` layout for moderate exponents (the
scientific-notation fallback for huge exponents is unreachable for the
inputs considered in the theorems below). -/
def placePoint (ds : List Char) (e : ℤ) : String :=
  if 0 ≤ e ∧ e ≤ 14 then
    let k := e.toNat + 1
    let ip := ds.take k
    let fp := ds.drop k
    if fp = [] then String.mk ip ++ ".0"
    else String.mk ip ++ "." ++ String.mk fp
  else if e < 0 then
    "0." ++ String.mk (List.replicate ((-e).toNat - 1) '0') ++ String.mk ds
  else
    String.mk (ds.take 1) ++ "." ++ String.mk (ds.drop 1) ++ "e+" ++ Nat.repr e.toNat

/-- `str(Float(q))` at SymPy's default 15-significant-digit precision with
trailing zeros kept, which is what `str(….evalf())` prints
(`Float(4) ↦ "4.00000000000000"`, `Float(0) ↦ "0.0"`). -/
def evalfStr15 (q : ℚ) : String :=
  if q = 0 then "0.0"
  else
    let sgn := if q < 0 then "-" else ""
    let v := if q < 0 then -q else q
    let e : ℤ := qExp10 v
    let k : ℤ := 14 - e
    let scaled : ℚ :=
      if 0 ≤ k then v * ((10 ^ k.toNat : ℕ) : ℚ)
      else v / ((10 ^ (-k).toNat : ℕ) : ℚ)
    let n : ℕ := roundHalfEven scaled
    let ne : ℕ × ℤ := if n = 10 ^ 15 then (10 ^ 14, e + 1) else (n, e)
    sgn ++ placePoint (Nat.repr ne.1).toList ne.2

/-- `str(sympify(…).evalf())` on the model values. -/
def sympyEvalfStr : SymVal → String
  | SymVal.rat q => evalfStr15 q
  | SymVal.zoo => "zoo"
  | SymVal.nan => "nan"

/-- The `_ALLOWED_MATH` whitelist. -/
def ALLOWED_MATH : List Char := "0123456789+-*/()% .".toList

/-- `_math_try(expr)`: whitelist check, at-least-one-operator check, then
`str(sympify(expr).evalf())` with a trailing `".0"` stripped; every
evaluation error yields `""`. -/
def math_try (expr : String) : String :=
  if expr ≠ "" ∧ expr.toList.all (· ∈ ALLOWED_MATH) then
    if expr.toList.any (· ∈ ("+-*/%".toList)) then
      match sympifyEval expr with
      | some v =>
        let s := sympyEvalfStr v
        match s.toList.reverse with
        | '0' :: '.' :: _ => String.mk (s.toList.take (s.toList.length - 2))
        | _ => s
      | none => ""
    else ""
  else ""

/-! ### Answer normalization  (orchestrator.py, `_strip_answer`) -/

/-- `re.sub(r"^\s*(answer\s*:\s*)", "", t, flags=re.I)`: delete one
leading `answer :` tag (any capitalization, optional surrounding
whitespace) when present. -/
def dropAnswerTag (t : List Char) : List Char :=
  let s := t.dropWhile isPyWs
  if (s.take 6).map lowerChar = "answer".toList then
    let r := (s.drop 6).dropWhile isPyWs
    match r with
    | ':' :: r2 => r2.dropWhile isPyWs
    | _ => t
  else t

/-- `_strip_answer(text)`: strip, remove a leading `answer:` tag, strip
again; the empty string maps to itself. -/
def strip_answer (text : String) : String :=
  if text = "" then ""
  else pyStrip (String.mk (dropAnswerTag (pyStrip text).toList))

/-! ### Providers and fan-out  (orchestrator.py, stages 4–5)

The five provider wrappers `_openai_chat` … `_cohere_chat` all return
`Optional[str]` and swallow every transport/parse error into `None`; a
missing credential is also `None`.  The network boundary is abstracted as
an `Oracle`: provider name, prompt and system message to an optional
response.  `none` covers `None` returns and raised exceptions alike, since
`answer_question` treats both identically at each call site, while
`some s` is a returned string — possibly empty, which the call sites then
test for truthiness.

`ThreadPoolExecutor`/`as_completed` collect results in completion order,
which is scheduler-dependent; the model fixes the completion order to the
submission order.  Every property proved below is independent of this
choice (the claims touched either constrain the set of consulted
providers or concern runs where at most one provider responds). -/

/-- Provider call results, abstracting the five `_*_chat` wrappers. -/
abbrev Oracle := String → String → String → Option String

/-- The key order of `_PROVIDER_FUNCS`, also the hardcoded default
preference order of `_provider_order`. -/
def PROVIDER_NAMES : List String :=
  ["openai", "anthropic", "google", "mistral", "cohere"]

/-- Environment configuration: which provider credentials are present
(`googleKey` models `GOOGLE_API_KEY or GEMINI_API_KEY`), and the raw
`PROVIDER_ORDER` environment string (`""` when unset, as `os.getenv`'s
default). -/
structure Env where
  openaiKey : Bool
  anthropicKey : Bool
  googleKey : Bool
  mistralKey : Bool
  cohereKey : Bool
  providerOrderEnv : String
deriving DecidableEq, Repr

/-- `_provider_order(force_provider)`: a truthy forced provider that is a
known key short-circuits to a singleton order; otherwise the
`PROVIDER_ORDER` environment variable is split on commas, stripped and
filtered to known names, and the hardcoded default is the last resort. -/
def provider_order (force : Option String) (orderEnv : String) : List String :=
  if force.getD "" ≠ "" ∧ force.getD "" ∈ PROVIDER_NAMES then [force.getD ""]
  else
    let parsed :=
      if orderEnv ≠ "" then
        ((orderEnv.splitOn ",").map pyStrip).filter (· ∈ PROVIDER_NAMES)
      else []
    if parsed ≠ [] then parsed else PROVIDER_NAMES

/-- Credential presence per provider name. -/
def keyPresent (env : Env) (name : String) : Bool :=
  if name = "openai" then env.openaiKey
  else if name = "anthropic" then env.anthropicKey
  else if name = "google" then env.googleKey
  else if name = "mistral" then env.mistralKey
  else if name = "cohere" then env.cohereKey
  else false

/-- `_active_providers(order)`: the source appends each of the five names
in the fixed sequence `openai, anthropic, google, mistral, cohere`
whenever the name is in `order` and its key is configured; the same five
sequential conditional appends expressed as a filter over the fixed name
list. -/
def active_providers (order : List String) (env : Env) : List String :=
  PROVIDER_NAMES.filter (fun name => name ∈ order ∧ keyPresent env name)

/-- The system instruction of stage 4. -/
def SYSTEM_MSG : String :=
  "Answer directly and correctly. Be concise. If asked for code, provide runnable code blocks."

/-- The prompt of stage 4: the question, with retrieved context appended
when non-empty. -/
def mk_prompt (q ctx : String) : String :=
  if ctx ≠ "" then q ++ "\n\nContext:\n" ++ ctx else q

/-- Normalized result dict of `answer_question`. -/
structure AnswerResult where
  mode : String
  answer : String
  provider : String
  providers_used : List String
  from_memory : Bool
deriving DecidableEq, Repr

/-- The stage-5 "last resort" sentinel. -/
def NO_ANSWER : AnswerResult :=
  ⟨"single", "I don\x27t have an exact answer yet for that.", "none", [], false⟩

/-- The ensemble fan-out loop: submit to every active provider, keep the
stripped text and the provider name of each truthy response, ignore
errors and falsy responses.  Returns `(answers, used)`. -/
def fan_out (oracle : Oracle) (active : List String) (prompt sys : String) :
    List String × List String :=
  match active with
  | [] => ([], [])
  | p :: rest =>
    let r := fan_out oracle rest prompt sys
    match oracle p prompt sys with
    | some t => if t ≠ "" then (strip_answer t :: r.1, p :: r.2) else r
    | none => r

/-- The forced single-provider call: performed only when the forced name
is truthy and active; a raised exception or falsy text means no forced
answer (`None`-or-`""` both fall through to the ensemble). -/
def forced_call (oracle : Oracle) (active : List String) (force : Option String)
    (prompt : String) : Option (String × String) :=
  match force with
  | some f =>
    if f ≠ "" ∧ f ∈ active then
      match oracle f prompt SYSTEM_MSG with
      | some t => if t ≠ "" then some (f, strip_answer t) else none
      | none => none
    else none
  | none => none

/-- The ensemble branch of stage 4: fan out, vote when any answer
arrived, label `"ensemble"` only when more than one provider responded,
record the final answer into memory; otherwise the sentinel with the
memory untouched. -/
def ensemble_step (oracle : Oracle) (active : List String) (prompt q : String)
    (mem : Memory) : AnswerResult × Memory :=
  let res := fan_out oracle active prompt SYSTEM_MSG
  if res.1 ≠ [] then
    let final := vote_select res.1
    let label :=
      if 1 < res.2.length then "ensemble"
      else match res.2 with
        | u :: _ => u
        | [] => "unknown"
    (⟨"single", final, label, res.2, false⟩, memory_add mem q final)
  else (NO_ANSWER, mem)

/-- Stage 4 of `answer_question`: provider order, active set, optional
forced single call, then the ensemble fan-out. -/
def stage4 (env : Env) (oracle : Oracle) (mem : Memory) (q : String)
    (force : Option String) (ctx : String) : AnswerResult × Memory :=
  let prompt := mk_prompt q ctx
  let order := provider_order force env.providerOrderEnv
  let active := active_providers order env
  match forced_call oracle active force prompt with
  | some fa => (⟨"single", fa.2, fa.1, [fa.1], false⟩, memory_add mem q fa.2)
  | none => ensemble_step oracle active prompt q mem

/-- `answer_question(question, force_provider, context)`.

The returned pair is the normalized result dict together with the
post-call state of the short-term memory.  The bounded `time.sleep`
deliberation delay has no observable effect on the result and is not
modelled.  Pipeline, in source order: (1) safe math on the lowered
stripped question, (2) facts and the capital pattern, (3) exact
short-term-memory recall (most recent first, no memory write), (4)
forced single call and/or concurrent ensemble with voting, (5) the
sentinel. -/
def answer_question (env : Env) (oracle : Oracle) (mem : Memory)
    (question : String) (force : Option String) (ctx : String) :
    AnswerResult × Memory :=
  let q := pyStrip question
  let ql := pyLower q
  let m := math_try ql
  if m ≠ "" then
    (⟨"single", m, "local-math", [], false⟩, memory_add mem q m)
  else
    match facts_try ql with
    | some v => (⟨"single", v, "local-facts", [], false⟩, memory_add mem q v)
    | none =>
      match mem_lookup mem ql with
      | some aa => (⟨"single", aa, "local-memory", [], true⟩, mem)
      | none => stage4 env oracle mem q force ctx

/-! ## Helper lemmas -/

/-- A fan-out over providers all of which error, time out, or return the
empty string collects nothing. -/
theorem fan_out_all_fail (oracle : Oracle) (prompt sys : String) :
    ∀ active : List String,
      (∀ p ∈ active, ∀ r, oracle p prompt sys = some r → r = "") →
      fan_out oracle active prompt sys = ([], []) := by
  intro active
  induction active with
  | nil => intro _; rfl
  | cons p rest ih =>
    intro h
    have hrest := ih fun p' hp' => h p' (List.mem_cons_of_mem _ hp')
    unfold fan_out
    rw [hrest]
    cases ho : oracle p prompt sys with
    | none => rfl
    | some t =>
      have : t = "" := h p (List.mem_cons_self _ _) t ho
      subst this
      simp

/-- When every provider call fails, `forced_call` yields nothing. -/
theorem forced_call_fail (oracle : Oracle) (active : List String)
    (force : Option String) (prompt : String)
    (h : ∀ p ∈ active, ∀ r, oracle p prompt SYSTEM_MSG = some r → r = "") :
    forced_call oracle active force prompt = none := by
  cases force with
  | none => rfl
  | some f =>
    simp only [forced_call]
    by_cases hf : f ≠ "" ∧ f ∈ active
    · rw [if_pos hf]
      cases ho : oracle f prompt SYSTEM_MSG with
      | none => rfl
      | some t =>
        have : t = "" := h f hf.2 t ho
        subst this
        simp
    · rw [if_neg hf]

/-- Stage 4 returns the sentinel and leaves the memory untouched whenever
every active provider's call errors or returns the empty string (in
particular when the active set is empty). -/
theorem stage4_sentinel (env : Env) (oracle : Oracle) (mem : Memory)
    (q : String) (force : Option String) (ctx : String)
    (hfail : ∀ p ∈ active_providers (provider_order force env.providerOrderEnv) env,
        ∀ r, oracle p (mk_prompt q ctx) SYSTEM_MSG = some r → r = "") :
    stage4 env oracle mem q force ctx = (NO_ANSWER, mem) := by
  have h1 : forced_call oracle
      (active_providers (provider_order force env.providerOrderEnv) env) force
      (mk_prompt q ctx) = none :=
    forced_call_fail _ _ _ _ hfail
  have h2 : fan_out oracle
      (active_providers (provider_order force env.providerOrderEnv) env)
      (mk_prompt q ctx) SYSTEM_MSG = ([], []) :=
    fan_out_all_fail _ _ _ _ hfail
  simp only [stage4, ensemble_step, h1, h2]
  simp

/-- When the three fast-path stages miss, `answer_question` is its
stage 4. -/
theorem aq_eq_stage4 (env : Env) (oracle : Oracle) (mem : Memory)
    (question : String) (force : Option String) (ctx : String)
    (hmath : math_try (pyLower (pyStrip question)) = "")
    (hfacts : facts_try (pyLower (pyStrip question)) = none)
    (hmem : mem_lookup mem (pyLower (pyStrip question)) = none) :
    answer_question env oracle mem question force ctx
      = stage4 env oracle mem (pyStrip question) force ctx := by
  simp only [answer_question, hmath, hfacts, hmem]
  simp

/-- The strict tuple order of the vote sort key is transitive. -/
theorem voteKeyLt_trans {a b c : ℕ × ℕ}
    (h1 : voteKeyLt a b) (h2 : voteKeyLt b c) : voteKeyLt a c := by
  unfold voteKeyLt at *
  omega

/-- Totality consequence: below something not above `b` means below `b`. -/
theorem voteKeyLt_cross {a b c : ℕ × ℕ}
    (h1 : ¬ voteKeyLt b c) (h2 : voteKeyLt a c) : voteKeyLt a b := by
  unfold voteKeyLt at *
  omega

/-- Folding `bestStep` from a seed returns an element of the seed-extended
list that no element of it strictly beats: the running maximum, first
occurrence winning ties. -/
theorem bestStep_fold (l : List VoteEntry) : ∀ b : VoteEntry,
    ∃ r, l.foldl bestStep (some b) = some r ∧ r ∈ b :: l ∧
      ∀ e ∈ b :: l, ¬ voteKeyLt (voteKey r) (voteKey e) := by
  induction l with
  | nil =>
    intro b
    refine ⟨b, rfl, List.mem_cons_self _ _, ?_⟩
    intro e he
    rcases List.mem_cons.mp he with rfl | h
    · unfold voteKeyLt; omega
    · simp at h
  | cons x rest ih =>
    intro b
    by_cases h : voteKeyLt (voteKey b) (voteKey x)
    · have hb : bestStep (some b) x = some x := by
        simp [bestStep, if_pos h]
      obtain ⟨r, hr, hmem, hall⟩ := ih x
      refine ⟨r, by rw [List.foldl_cons, hb, hr], ?_, ?_⟩
      · exact List.mem_cons_of_mem _ hmem
      · intro e he
        rcases List.mem_cons.mp he with rfl | he2
        · intro hrb
          exact hall x (List.mem_cons_self _ _) (voteKeyLt_trans hrb h)
        · exact hall e he2
    · have hb : bestStep (some b) x = some b := by
        simp [bestStep, if_neg h]
      obtain ⟨r, hr, hmem, hall⟩ := ih b
      refine ⟨r, by rw [List.foldl_cons, hb, hr], ?_, ?_⟩
      · rcases List.mem_cons.mp hmem with rfl | hm
        · exact List.mem_cons_self _ _
        · exact List.mem_cons_of_mem _ (List.mem_cons_of_mem _ hm)
      · intro e he
        rcases List.mem_cons.mp he with rfl | he2
        · exact hall e (List.mem_cons_self _ _)
        · rcases List.mem_cons.mp he2 with rfl | he3
          · intro hrx
            exact hall b (List.mem_cons_self _ _) (voteKeyLt_cross h hrx)
          · exact hall e (List.mem_cons_of_mem _ he3)

/-- `bestEntry` of a non-empty list is the first entry of maximal key. -/
theorem bestEntry_spec (l : List VoteEntry) (hne : l ≠ []) :
    ∃ r, bestEntry l = some r ∧ r ∈ l ∧
      ∀ e ∈ l, ¬ voteKeyLt (voteKey r) (voteKey e) := by
  match l, hne with
  | x :: rest, _ =>
    obtain ⟨r, hr, hmem, hall⟩ := bestStep_fold rest x
    exact ⟨r, hr, hmem, hall⟩

/-- A candidate normalizing to the empty string is skipped by the counting
loop. -/
theorem voteStep_skip (acc : List VoteEntry) (c : String)
    (h : normalize_for_vote c = "") : voteStep acc c = acc := by
  unfold voteStep
  rw [if_pos h]

/-- A candidate with a fresh non-empty key appends a `(key, 1, raw)`
entry. -/
theorem voteStep_new (acc : List VoteEntry) (c : String)
    (h : normalize_for_vote c ≠ "")
    (h2 : ∀ e ∈ acc, e.1 ≠ normalize_for_vote c) :
    voteStep acc c = acc ++ [(normalize_for_vote c, 1, c)] := by
  unfold voteStep
  rw [if_neg h]
  have hany : acc.any (fun e => e.1 = normalize_for_vote c) = false := by
    rw [List.any_eq_false]
    intro e he
    simpa using h2 e he
  rw [hany]
  simp

/-- Counting a list of candidates with pairwise-distinct non-empty keys,
none already present in the accumulator, appends one count-1 entry per
candidate in order. -/
theorem vote_fold_distinct : ∀ (l : List String) (acc : List VoteEntry),
    (∀ c ∈ l, normalize_for_vote c ≠ "") →
    (∀ c ∈ l, ∀ e ∈ acc, e.1 ≠ normalize_for_vote c) →
    (l.map normalize_for_vote).Nodup →
    l.foldl voteStep acc = acc ++ l.map (fun c => (normalize_for_vote c, 1, c)) := by
  intro l
  induction l with
  | nil => intro acc _ _ _; simp
  | cons c rest ih =>
    intro acc hne hfresh hnd
    have hstep : voteStep acc c
        = acc ++ [(normalize_for_vote c, 1, c)] :=
      voteStep_new acc c (hne c (List.mem_cons_self _ _))
        (fun e he => hfresh c (List.mem_cons_self _ _) e he)
    have hnotin : normalize_for_vote c ∉ rest.map normalize_for_vote := by
      have := hnd
      simp only [List.map_cons, List.nodup_cons] at this
      exact this.1
    have hrec := ih (acc ++ [(normalize_for_vote c, 1, c)])
      (fun c' hc' => hne c' (List.mem_cons_of_mem _ hc'))
      (by
        intro c' hc' e he
        rcases List.mem_append.mp he with hacc | hsing
        · exact hfresh c' (List.mem_cons_of_mem _ hc') e hacc
        · have he1 : e = (normalize_for_vote c, 1, c) := by simpa using hsing
          subst he1
          intro hcontra
          have hceq : normalize_for_vote c = normalize_for_vote c' := hcontra
          have hmm : normalize_for_vote c' ∈ rest.map normalize_for_vote :=
            List.mem_map_of_mem _ hc'
          rw [← hceq] at hmm
          exact hnotin hmm
        )
      (by
        have := hnd
        simp only [List.map_cons, List.nodup_cons] at this
        exact this.2)
    calc (c :: rest).foldl voteStep acc
        = rest.foldl voteStep (voteStep acc c) := List.foldl_cons _ _
      _ = rest.foldl voteStep (acc ++ [(normalize_for_vote c, 1, c)]) := by rw [hstep]
      _ = acc ++ [(normalize_for_vote c, 1, c)]
            ++ rest.map (fun c => (normalize_for_vote c, 1, c)) := hrec
      _ = acc ++ (c :: rest).map (fun c => (normalize_for_vote c, 1, c)) := by
            simp

/-- The multiset self-intersection of a gram list is its total gram
count: summing `min(count, count)` over the distinct grams recounts every
occurrence. -/
theorem commonCount_self (s : List String) : commonCount s s = s.length := by
  unfold commonCount
  simp only [min_self]
  exact List.sum_map_count_dedup_eq_length s

/-- When a candidate overlaps with no other candidate, the total overlap
accumulated over the pool is zero. -/
theorem overlap_sum_zero (s : List String) (others : List String)
    (hzero : ∀ o ∈ others, commonCount s (shingleList o 4) = 0) :
    (others.map (fun o => if o = "" then 0 else commonCount s (shingleList o 4))).sum
      = 0 := by
  apply List.sum_eq_zero
  intro x hx
  obtain ⟨o, ho, rfl⟩ := List.mem_map.mp hx
  by_cases h : o = "" <;> simp [h, hzero o ho]

/-! ## Claims -/

/-- C2 (code evaluated at the failing input): `_math_try("2+2")` returns
SymPy's 15-significant-digit string `"4.00000000000000"`, not the `"4"`
required by the specification's example; `str(….evalf())` pads with
trailing zeros, so the code's trailing-`".0"` strip never fires on it. -/
theorem C2_code_eval :
    math_try "2+2" = "4.00000000000000" ∧ math_try "2+2" ≠ "4" := by
  have h : math_try "2+2" = "4.00000000000000" := by with_unfolding_all rfl
  exact ⟨h, by rw [h]; decide⟩

/-- C3 (counterexample): the vote normalization keeps the trailing
period, so `"Paris"` and `"paris."` do not collapse into one group — no
group of size 2 forms among `["Paris", "paris.", "London"]` — and the
vote returns `"paris."` rather than a text of a size-2 group. -/
theorem C3_counterexample :
    normalize_for_vote "Paris" ≠ normalize_for_vote "paris."
    ∧ vote_select ["Paris", "paris.", "London"] = "paris."
    ∧ ¬ ∃ e ∈ ["Paris", "paris.", "London"].foldl voteStep [], e.2.1 = 2 := by
  refine ⟨by decide, by decide, by decide⟩

/-- C3 (amended): normalization lowercases but does not strip
punctuation, so the three candidates form three singleton groups with
keys `"paris"`, `"paris."` and `"london"`; the count tie is broken by
original length and insertion order, and `"paris."` — the first candidate
of maximal length — wins, not `"London"`. -/
theorem C3_amended :
    normalize_for_vote "Paris" = "paris"
    ∧ normalize_for_vote "paris." = "paris."
    ∧ normalize_for_vote "London" = "london"
    ∧ (["Paris", "paris.", "London"].foldl voteStep []).map (fun e => (e.1, e.2.1))
        = [("paris", 1), ("paris.", 1), ("london", 1)]
    ∧ vote_select ["Paris", "paris.", "London"] = "paris." := by
  refine ⟨by decide, by decide, by decide, by decide, by decide⟩

/-- C9: `memory_add` leaves the ring buffer unchanged when the question
or the answer is the empty string; otherwise it appends the pair, a
buffer already holding 50 pairs evicts its oldest pair, and a buffer
within the 50-pair capacity stays within capacity. -/
theorem C9_theorem (mem : Memory) (q a : String) :
    (q = "" ∨ a = "" → memory_add mem q a = mem)
    ∧ (q ≠ "" → a ≠ "" → mem.length < 50 →
        memory_add mem q a = mem ++ [(q, a)])
    ∧ (q ≠ "" → a ≠ "" → mem.length = 50 →
        memory_add mem q a = mem.tail ++ [(q, a)])
    ∧ (mem.length ≤ 50 → (memory_add mem q a).length ≤ 50) := by
  refine ⟨?_, ?_, ?_, ?_⟩
  · intro h
    unfold memory_add
    rw [if_neg]
    rcases h with h | h <;> simp [h]
  · intro hq ha hlen
    unfold memory_add
    rw [if_pos ⟨hq, ha⟩]
    simp only [List.length_append, List.length_singleton]
    have h0 : mem.length + 1 - 50 = 0 := by omega
    rw [h0, List.drop_zero]
  · intro hq ha hlen
    unfold memory_add
    rw [if_pos ⟨hq, ha⟩]
    simp only [List.length_append, List.length_singleton]
    have h1 : mem.length + 1 - 50 = 1 := by omega
    rw [h1, List.drop_append_of_le_length (by omega), List.drop_one]
  · intro hlen
    unfold memory_add
    split
    · simp only [List.length_drop, List.length_append, List.length_singleton]
      omega
    · exact hlen

/-- C9 (witness): concrete instances of each conjunct — an empty question
is ignored, a small buffer appends, a full 50-pair buffer evicts its
oldest pair, and capacity is preserved. -/
theorem C9_witness :
    memory_add [("a", "b")] "" "d" = [("a", "b")]
    ∧ memory_add [("a", "b")] "c" "d" = [("a", "b"), ("c", "d")]
    ∧ memory_add (List.replicate 50 ("x", "y")) "c" "d"
        = (List.replicate 50 ("x", "y")).tail ++ [("c", "d")]
    ∧ (memory_add [("a", "b")] "c" "d").length ≤ 50 :=
  ⟨(C9_theorem [("a", "b")] "" "d").1 (Or.inl rfl),
   (C9_theorem [("a", "b")] "c" "d").2.1 (by decide) (by decide) (by decide),
   (C9_theorem (List.replicate 50 ("x", "y")) "c" "d").2.2.1 (by decide) (by decide)
     (by simp),
   (C9_theorem [("a", "b")] "c" "d").2.2.2 (by decide)⟩

/-- C10: when every candidate of a non-empty pool normalizes to the empty
string, `_vote_select` returns the first candidate verbatim. -/
theorem C10_theorem (c0 : String) (rest : List String)
    (hall : ∀ c ∈ c0 :: rest, normalize_for_vote c = "") :
    vote_select (c0 :: rest) = c0 := by
  have hfold : ∀ (l : List String) (acc : List VoteEntry),
      (∀ c ∈ l, normalize_for_vote c = "") → l.foldl voteStep acc = acc := by
    intro l
    induction l with
    | nil => intro acc _; rfl
    | cons c r ih =>
      intro acc h
      rw [List.foldl_cons, voteStep_skip acc c (h c (List.mem_cons_self _ _))]
      exact ih acc fun c' hc' => h c' (List.mem_cons_of_mem _ hc')
  simp only [vote_select]
  rw [hfold _ _ hall]
  rfl

/-- C10 (witness): a whitespace-only and a backticks-only candidate both
normalize to `""`; the first one is returned verbatim. -/
theorem C10_witness : vote_select ["   ", "``"] = "   " :=
  C10_theorem "   " ["``"] (by decide)

/-- C6 (counterexample): `["A", "`````"]` has all vote counts equal to 1
(the backticks-only candidate normalizes to `""` and is excluded from the
count table), yet the vote returns `"A"` although `"`````"` has the
longer original text — the claimed "longest original wins" fails. -/
theorem C6_counterexample :
    (["A", "`````"].foldl voteStep []).map (fun e => (e.1, e.2.1)) = [("a", 1)]
    ∧ vote_select ["A", "`````"] = "A"
    ∧ ("A").length < ("`````").length := by
  refine ⟨by decide, by decide, by decide⟩

/-- C6 (amended): for a candidate list in which every candidate's
normalized form is non-empty and the normalized forms are pairwise
distinct (so every vote count is 1), `_vote_select` returns one of the
original candidates unmodified, of maximal original length (candidates
normalizing to the empty string are excluded from the vote and cannot
win). -/
theorem C6_amended (l : List String) (hne : l ≠ [])
    (hnorm : ∀ c ∈ l, normalize_for_vote c ≠ "")
    (hnd : (l.map normalize_for_vote).Nodup) :
    vote_select l ∈ l ∧ ∀ c ∈ l, c.length ≤ (vote_select l).length := by
  cases l with
  | nil => exact absurd rfl hne
  | cons c0 rest =>
    have hfold : (c0 :: rest).foldl voteStep ([] : List VoteEntry)
        = (c0 :: rest).map (fun c => (normalize_for_vote c, 1, c)) := by
      simpa using vote_fold_distinct (c0 :: rest) [] hnorm (by simp) hnd
    have hmapne : (c0 :: rest).map (fun c => (normalize_for_vote c, 1, c)) ≠ [] := by
      simp
    obtain ⟨r, hbest, hmem, hall⟩ := bestEntry_spec _ hmapne
    have hvs : vote_select (c0 :: rest) = r.2.2 := by
      simp only [vote_select]
      rw [hfold, hbest]
    obtain ⟨c, hc, hcr⟩ := List.mem_map.mp hmem
    have h222 : r.2.2 = c := by rw [← hcr]
    constructor
    · rw [hvs, h222]
      exact hc
    · intro c' hc'
      have he' : (normalize_for_vote c', 1, c')
          ∈ (c0 :: rest).map (fun c => (normalize_for_vote c, 1, c)) :=
        List.mem_map_of_mem _ hc'
      have hnl := hall _ he'
      have hkey : voteKey r = (1, c.length) := by rw [← hcr]; rfl
      have hkey2 : voteKey (normalize_for_vote c', 1, c') = (1, c'.length) := rfl
      rw [hkey, hkey2] at hnl
      rw [hvs, h222]
      by_contra hlt
      push_neg at hlt
      exact hnl (Or.inr ⟨rfl, hlt⟩)

/-- C6 (witness): the spec's own example — three pairwise-distinct
candidates; the returned candidate is one of them and no candidate is
longer. -/
theorem C6_witness :
    vote_select ["A", "AB", "ABC"] ∈ ["A", "AB", "ABC"]
    ∧ ∀ c ∈ ["A", "AB", "ABC"], c.length ≤ (vote_select ["A", "AB", "ABC"]).length :=
  C6_amended ["A", "AB", "ABC"] (by decide) (by decide) (by decide)

/-- C8 (counterexample): `"hello"` is a non-empty candidate with a single
token; it has no 4-gram shingles at all, hence zero shingle overlap with
every other candidate in the pool, yet its novelty score is `0`, not the
claimed exact `1.0`. -/
theorem C8_counterexample :
    "hello" ≠ ""
    ∧ shingleList "hello" 4 = []
    ∧ (∀ o ∈ ["a b c d e"], commonCount (shingleList "hello" 4) (shingleList o 4) = 0)
    ∧ novelty_score "hello" ["a b c d e"] = 0
    ∧ novelty_score "hello" ["a b c d e"] ≠ 1 := by
  refine ⟨by decide, by decide, by decide, by decide, by decide⟩

/-- C8 (amended): a candidate with at least one 4-gram shingle and zero
shingle overlap with every other candidate scores exactly 1; a non-empty
candidate with fewer than four tokens (no 4-gram shingles) scores 0; and
a candidate with at least one shingle whose text also occurs elsewhere in
the pool scores strictly below 1 — in particular strictly below any
zero-overlap candidate of the first kind. -/
theorem C8_amended :
    (∀ (t : String) (others : List String), shingleList t 4 ≠ [] →
        (∀ o ∈ others, commonCount (shingleList t 4) (shingleList o 4) = 0) →
        novelty_score t others = 1)
    ∧ (∀ (t : String) (others : List String), t ≠ "" → shingleList t 4 = [] →
        novelty_score t others = 0)
    ∧ (∀ (t : String) (others : List String), shingleList t 4 ≠ [] → t ∈ others →
        novelty_score t others < 1) := by
  refine ⟨?_, ?_, ?_⟩
  · intro t others hs hzero
    have ht : t ≠ "" := by
      intro h
      rw [h] at hs
      exact hs rfl
    simp only [novelty_score, if_neg ht, if_neg hs]
    rw [overlap_sum_zero _ _ hzero]
    norm_num
  · intro t others ht hs
    simp only [novelty_score, if_neg ht, hs]
    simp
  · intro t others hs hmem
    have ht : t ≠ "" := by
      intro h
      rw [h] at hs
      exact hs rfl
    simp only [novelty_score, if_neg ht, if_neg hs]
    have hpos : 0 < (shingleList t 4).length := List.length_pos.mpr hs
    have hmax : max (shingleList t 4).length 1 = (shingleList t 4).length :=
      Nat.max_eq_left hpos
    have hterm :
        (if t = "" then 0
         else commonCount (shingleList t 4) (shingleList t 4))
          ∈ others.map
              (fun o => if o = "" then 0
                else commonCount (shingleList t 4) (shingleList o 4)) :=
      List.mem_map_of_mem _ hmem
    rw [if_neg ht, commonCount_self] at hterm
    have hge : (shingleList t 4).length
        ≤ (others.map
            (fun o => if o = "" then 0
              else commonCount (shingleList t 4) (shingleList o 4))).sum :=
      List.single_le_sum (fun x _ => Nat.zero_le x) _ hterm
    rw [hmax]
    set L := (shingleList t 4).length with hL
    set ov := (others.map
        (fun o => if o = "" then 0
          else commonCount (shingleList t 4) (shingleList o 4))).sum with hov
    have hLq : (0 : ℚ) < (L : ℚ) := by exact_mod_cast hpos
    have h1 : (1 : ℚ) ≤ (ov : ℚ) / (L : ℚ) := by
      rw [le_div_iff₀ hLq]
      have : (L : ℚ) ≤ (ov : ℚ) := by exact_mod_cast hge
      linarith
    have h2 : (2 : ℚ) ≤ 1 + (ov : ℚ) / (L : ℚ) := by linarith
    have h3 : 1 / (1 + (ov : ℚ) / (L : ℚ)) ≤ 1 / 2 :=
      one_div_le_one_div_of_le (by norm_num) h2
    calc 1 / (1 + (ov : ℚ) / (L : ℚ)) ≤ 1 / 2 := h3
      _ < 1 := by norm_num

/-- C8 (witness): concrete instances — a zero-overlap four-token
candidate scores exactly 1, a two-token candidate scores 0, and a
duplicated four-token candidate scores strictly below 1. -/
theorem C8_witness :
    novelty_score "a b c d" ["p q r s t"] = 1
    ∧ novelty_score "hi there" ["a b c d"] = 0
    ∧ novelty_score "a b c d" ["a b c d"] < 1 :=
  ⟨C8_amended.1 "a b c d" ["p q r s t"] (by decide) (by decide),
   C8_amended.2.1 "hi there" ["a b c d"] (by decide) (by decide),
   C8_amended.2.2 "a b c d" ["a b c d"] (by decide) (by decide)⟩

/-- C5: a question that misses the math and fact stages and whose
lowercased form equals a previously stored question is answered from
short-term memory — most recent stored answer, `from_memory = true`,
`providers_used = []`, the result independent of every provider oracle,
and the ring buffer unchanged; a math or facts fast-path hit instead
records its question/answer pair via `memory_add`. -/
theorem C5_theorem (env : Env) (oracle : Oracle) (mem : Memory)
    (question : String) (force : Option String) (ctx : String) :
    (∀ a, math_try (pyLower (pyStrip question)) = "" →
        facts_try (pyLower (pyStrip question)) = none →
        mem_lookup mem (pyLower (pyStrip question)) = some a →
        answer_question env oracle mem question force ctx
          = (⟨"single", a, "local-memory", [], true⟩, mem))
    ∧ (math_try (pyLower (pyStrip question)) ≠ "" →
        answer_question env oracle mem question force ctx
          = (⟨"single", math_try (pyLower (pyStrip question)), "local-math", [], false⟩,
             memory_add mem (pyStrip question) (math_try (pyLower (pyStrip question)))))
    ∧ (∀ v, math_try (pyLower (pyStrip question)) = "" →
        facts_try (pyLower (pyStrip question)) = some v →
        answer_question env oracle mem question force ctx
          = (⟨"single", v, "local-facts", [], false⟩,
             memory_add mem (pyStrip question) v)) := by
  refine ⟨?_, ?_, ?_⟩
  · intro a hmath hfacts hmem
    simp only [answer_question, hmath, hfacts, hmem]
    simp
  · intro hmath
    simp only [answer_question]
    rw [if_pos hmath]
  · intro v hmath hfacts
    simp only [answer_question, hmath, hfacts]
    simp

/-- C5 (witness): `"ping?"` misses math and facts, matches the stored
`("Ping?", "pong")` case-insensitively, and is answered from memory with
no provider use and the memory unchanged — even though the oracle would
have answered. -/
theorem C5_witness :
    answer_question ⟨true, true, true, true, true, ""⟩ (fun _ _ _ => some "ORACLE")
        [("Ping?", "pong")] "ping?" none ""
      = (⟨"single", "pong", "local-memory", [], true⟩, [("Ping?", "pong")]) :=
  (C5_theorem ⟨true, true, true, true, true, ""⟩ (fun _ _ _ => some "ORACLE")
      [("Ping?", "pong")] "ping?" none "").1 "pong" (by decide) (by decide) (by decide)

/-- C7: when the fast paths miss and either zero providers are active or
every active provider's call errors, times out, or returns the empty
string, `answer_question` returns the fixed sentinel (answer
`"I don't have an exact answer yet for that."`, provider `"none"`,
`providers_used = []`, `from_memory = false`) with the memory unchanged,
rather than raising an error. -/
theorem C7_theorem (env : Env) (oracle : Oracle) (mem : Memory)
    (question : String) (force : Option String) (ctx : String)
    (hmath : math_try (pyLower (pyStrip question)) = "")
    (hfacts : facts_try (pyLower (pyStrip question)) = none)
    (hmem : mem_lookup mem (pyLower (pyStrip question)) = none)
    (hfail : ∀ p ∈ active_providers (provider_order force env.providerOrderEnv) env,
        ∀ r, oracle p (mk_prompt (pyStrip question) ctx) SYSTEM_MSG = some r → r = "") :
    answer_question env oracle mem question force ctx = (NO_ANSWER, mem) := by
  rw [aq_eq_stage4 env oracle mem question force ctx hmath hfacts hmem]
  exact stage4_sentinel env oracle mem (pyStrip question) force ctx hfail

/-- C7 (witness): with no credentials configured the active set is empty
and the sentinel is returned, even though the oracle would have
answered. -/
theorem C7_witness :
    answer_question ⟨false, false, false, false, false, ""⟩
        (fun _ _ _ => some "unused") [] "why is the sky blue" none ""
      = (NO_ANSWER, []) :=
  C7_theorem ⟨false, false, false, false, false, ""⟩ (fun _ _ _ => some "unused")
    [] "why is the sky blue" none "" (by decide) (by decide) (by decide)
    (by
      intro p hp
      rw [show active_providers (provider_order none "")
            (⟨false, false, false, false, false, ""⟩ : Env) = [] from by decide] at hp
      exact absurd hp (List.not_mem_nil p))

/-- C1 (counterexample): `openai` and `anthropic` are both configured, so
the claim predicts that when the forced `openai` call fails the request
falls through to the full active ensemble `["openai", "anthropic"]` and is
answered by `anthropic`'s `"42"`.  The code instead derives the active set
from the forced singleton order, retries only `openai`, and returns the
sentinel: `anthropic` is never consulted. -/
theorem C1_counterexample :
    answer_question ⟨true, true, false, false, false, ""⟩
        (fun p _ _ => if p = "anthropic" then some "42" else none)
        [] "zzz" (some "openai") ""
      = (NO_ANSWER, [])
    ∧ active_providers (provider_order none "") ⟨true, true, false, false, false, ""⟩
        = ["openai", "anthropic"]
    ∧ "anthropic" ∉ (answer_question ⟨true, true, false, false, false, ""⟩
        (fun p _ _ => if p = "anthropic" then some "42" else none)
        [] "zzz" (some "openai") "").1.providers_used := by
  refine ⟨by decide, by decide, by decide⟩

/-- C1 (amended): if a provider is forced, known, and has a credential,
the provider order collapses to the forced singleton, so the active set is
exactly the forced provider; when its call fails (errors or returns a
falsy text) the request falls through to the concurrent ensemble over that
singleton active set — a retry of the forced provider only, not the full
configured set — and when that also fails the request is not failed but
answered with the no-answer sentinel, the memory untouched. -/
theorem C1_amended (env : Env) (oracle : Oracle) (mem : Memory)
    (question ctx f : String)
    (hf0 : f ≠ "") (hfP : f ∈ PROVIDER_NAMES)
    (hkey : keyPresent env f = true)
    (hmath : math_try (pyLower (pyStrip question)) = "")
    (hfacts : facts_try (pyLower (pyStrip question)) = none)
    (hmem : mem_lookup mem (pyLower (pyStrip question)) = none)
    (hfail : ∀ r, oracle f (mk_prompt (pyStrip question) ctx) SYSTEM_MSG = some r → r = "") :
    provider_order (some f) env.providerOrderEnv = [f]
    ∧ active_providers (provider_order (some f) env.providerOrderEnv) env = [f]
    ∧ answer_question env oracle mem question (some f) ctx = (NO_ANSWER, mem) := by
  have horder : provider_order (some f) env.providerOrderEnv = [f] := by
    simp only [provider_order]
    rw [if_pos ⟨hf0, hfP⟩]
    rfl
  have hact : active_providers [f] env = [f] := by
    simp only [PROVIDER_NAMES] at hfP
    fin_cases hfP <;>
      simp_all [active_providers, PROVIDER_NAMES, keyPresent, List.filter]
  refine ⟨horder, by rw [horder]; exact hact, ?_⟩
  rw [aq_eq_stage4 env oracle mem question (some f) ctx hmath hfacts hmem]
  apply stage4_sentinel
  intro p hp r hr
  rw [horder, hact] at hp
  have hpf : p = f := by simpa using hp
  subst hpf
  exact hfail r hr

/-- C1 (witness): `openai` forced and configured, its call erroring — the
order and active set collapse to `["openai"]` and the result is the
sentinel, not a failure. -/
theorem C1_witness :
    provider_order (some "openai") "" = ["openai"]
    ∧ active_providers (provider_order (some "openai") "")
        ⟨true, false, false, false, false, ""⟩ = ["openai"]
    ∧ answer_question ⟨true, false, false, false, false, ""⟩ (fun _ _ _ => none)
        [] "qqp" (some "openai") "" = (NO_ANSWER, []) :=
  C1_amended ⟨true, false, false, false, false, ""⟩ (fun _ _ _ => none) [] "qqp" ""
    "openai" (by decide) (by decide) (by decide) (by decide) (by decide) (by decide)
    (fun r hr => nomatch hr)

/-- C4 (counterexample): `openai` is active and returns the empty string;
the claim predicts it is kept as a candidate and counted in
`providers_used`, but the fan-out's truthiness test discards it — no
provider is counted and the sentinel is returned. -/
theorem C4_counterexample :
    answer_question ⟨true, false, false, false, false, ""⟩ (fun _ _ _ => some "")
        [] "qqq" none "" = (NO_ANSWER, [])
    ∧ fan_out (fun _ _ _ => some "") ["openai"] "qqq" SYSTEM_MSG = ([], []) := by
  refine ⟨by decide, by decide⟩

/-- C4 (amended): the fan-out counts a provider as responding exactly when
its call returns a non-empty string: transport errors, exceptions and
empty-string completions alike are dropped, so an empty-string completion
is treated the same as absence rather than kept as a candidate. -/
theorem C4_amended (oracle : Oracle) (prompt sys : String) (active : List String) :
    (fan_out oracle active prompt sys).2
      = active.filter (fun p =>
          match oracle p prompt sys with
          | some r => r != ""
          | none => false) := by
  induction active with
  | nil => rfl
  | cons p rest ih =>
    simp only [fan_out]
    cases ho : oracle p prompt sys with
    | none => simp [List.filter_cons, ho, ih]
    | some t =>
      by_cases ht : t = ""
      · subst ht
        simp [List.filter_cons, ho, ih]
      · simp [List.filter_cons, ho, ht, ih]

/-- C4 (amended, witness): applying the characterization to a pool where
`openai` answers the empty string and `anthropic` answers `"ok"`: only
`anthropic` is counted. -/
theorem C4_witness :
    (fan_out (fun p _ _ => if p = "openai" then some "" else some "ok")
        ["openai", "anthropic"] "q" SYSTEM_MSG).2
      = ["openai", "anthropic"].filter (fun p =>
          match (fun (p : String) (_ _ : String) =>
              if p = "openai" then some "" else some "ok") p "q" SYSTEM_MSG with
          | some r => r != ""
          | none => false) :=
  C4_amended (fun p _ _ => if p = "openai" then some "" else some "ok") "q" SYSTEM_MSG
    ["openai", "anthropic"]

end DevForge
